import Mathlib

/-!
Verification development for the `AesCtrEncryptor` component of this
repository (AES-128 in CTR mode under the CENC convention).

The repository ships the component's unit tests
(`media/base/aes_encryptor_unittest.cc`); the encryptor implementation and
the AES block primitive are external to the provided sources, so both are
modelled from the design specification, and the unit tests in the sources
act as the ground truth where the specification's wording is ambiguous or
inconsistent (notably the per-block counter increment rule, pinned down by
the `128BitIVBoundaryCaseEncryption` test).

Bytes are modelled as `Nat` values kept below 256 by the byte-level
operations themselves (XOR of two bytes is a byte; table entries are
bytes; `% 256` appears wherever C arithmetic would truncate).
-/

/-! ## AES-128 block primitive (FIPS-197) -/

/-- Modelled from the spec: the external block-cipher collaborator
`EncryptBlock(key, block)` is "a deterministic FIPS-197 AES-128
single-block encryption"; the repository sources do not contain it, so it
is reproduced here per FIPS-197. This is its S-box lookup table. -/
def sBoxTable : List Nat :=
  [0x63, 0x7c, 0x77, 0x7b, 0xf2, 0x6b, 0x6f, 0xc5,
   0x30, 0x01, 0x67, 0x2b, 0xfe, 0xd7, 0xab, 0x76,
   0xca, 0x82, 0xc9, 0x7d, 0xfa, 0x59, 0x47, 0xf0,
   0xad, 0xd4, 0xa2, 0xaf, 0x9c, 0xa4, 0x72, 0xc0,
   0xb7, 0xfd, 0x93, 0x26, 0x36, 0x3f, 0xf7, 0xcc,
   0x34, 0xa5, 0xe5, 0xf1, 0x71, 0xd8, 0x31, 0x15,
   0x04, 0xc7, 0x23, 0xc3, 0x18, 0x96, 0x05, 0x9a,
   0x07, 0x12, 0x80, 0xe2, 0xeb, 0x27, 0xb2, 0x75,
   0x09, 0x83, 0x2c, 0x1a, 0x1b, 0x6e, 0x5a, 0xa0,
   0x52, 0x3b, 0xd6, 0xb3, 0x29, 0xe3, 0x2f, 0x84,
   0x53, 0xd1, 0x00, 0xed, 0x20, 0xfc, 0xb1, 0x5b,
   0x6a, 0xcb, 0xbe, 0x39, 0x4a, 0x4c, 0x58, 0xcf,
   0xd0, 0xef, 0xaa, 0xfb, 0x43, 0x4d, 0x33, 0x85,
   0x45, 0xf9, 0x02, 0x7f, 0x50, 0x3c, 0x9f, 0xa8,
   0x51, 0xa3, 0x40, 0x8f, 0x92, 0x9d, 0x38, 0xf5,
   0xbc, 0xb6, 0xda, 0x21, 0x10, 0xff, 0xf3, 0xd2,
   0xcd, 0x0c, 0x13, 0xec, 0x5f, 0x97, 0x44, 0x17,
   0xc4, 0xa7, 0x7e, 0x3d, 0x64, 0x5d, 0x19, 0x73,
   0x60, 0x81, 0x4f, 0xdc, 0x22, 0x2a, 0x90, 0x88,
   0x46, 0xee, 0xb8, 0x14, 0xde, 0x5e, 0x0b, 0xdb,
   0xe0, 0x32, 0x3a, 0x0a, 0x49, 0x06, 0x24, 0x5c,
   0xc2, 0xd3, 0xac, 0x62, 0x91, 0x95, 0xe4, 0x79,
   0xe7, 0xc8, 0x37, 0x6d, 0x8d, 0xd5, 0x4e, 0xa9,
   0x6c, 0x56, 0xf4, 0xea, 0x65, 0x7a, 0xae, 0x08,
   0xba, 0x78, 0x25, 0x2e, 0x1c, 0xa6, 0xb4, 0xc6,
   0xe8, 0xdd, 0x74, 0x1f, 0x4b, 0xbd, 0x8b, 0x8a,
   0x70, 0x3e, 0xb5, 0x66, 0x48, 0x03, 0xf6, 0x0e,
   0x61, 0x35, 0x57, 0xb9, 0x86, 0xc1, 0x1d, 0x9e,
   0xe1, 0xf8, 0x98, 0x11, 0x69, 0xd9, 0x8e, 0x94,
   0x9b, 0x1e, 0x87, 0xe9, 0xce, 0x55, 0x28, 0xdf,
   0x8c, 0xa1, 0x89, 0x0d, 0xbf, 0xe6, 0x42, 0x68,
   0x41, 0x99, 0x2d, 0x0f, 0xb0, 0x54, 0xbb, 0x16]

/-- S-box substitution of one byte. -/
def sbox (b : Nat) : Nat := sBoxTable.getD b 0

/-- Multiplication by x in GF(2^8) modulo the AES polynomial. -/
def xtime (b : Nat) : Nat :=
  if b < 128 then 2 * b else ((2 * b) % 256) ^^^ 0x1b

/-- XOR two byte lists pointwise. -/
def xorBytes (a b : List Nat) : List Nat :=
  List.zipWith (fun x y => x ^^^ y) a b

/-- Rotate a 4-byte word left by one byte. -/
def rotWord : List Nat → List Nat
  | a :: rest => rest ++ [a]
  | [] => []

/-- Apply the S-box to each byte of a word. -/
def subWord (w : List Nat) : List Nat := w.map sbox

/-- AES round constants for AES-128 key expansion. -/
def rconTable : List Nat := [0x01, 0x02, 0x04, 0x08, 0x10, 0x20, 0x40, 0x80, 0x1b, 0x36]

/-- FIPS-197 key expansion for a 16-byte key: the 44 four-byte words
w[0..43]; word i (i ≥ 4) is w[i-4] XOR (for i % 4 = 0, the rotated,
substituted previous word XOR the round constant; otherwise the previous
word). -/
def keySchedule (key : List Nat) : List (List Nat) :=
  (List.range 40).foldl
    (fun ws i =>
      let last := ws.getD (ws.length - 1) []
      let prev := ws.getD (ws.length - 4) []
      let temp :=
        if (i + 4) % 4 = 0 then
          xorBytes (subWord (rotWord last)) [rconTable.getD ((i + 4) / 4 - 1) 0, 0, 0, 0]
        else last
      ws ++ [xorBytes prev temp])
    [key.take 4, (key.drop 4).take 4, (key.drop 8).take 4, (key.drop 12).take 4]

/-- The 16-byte round key for round r: words 4r..4r+3 flattened. -/
def roundKey (key : List Nat) (r : Nat) : List Nat :=
  List.flatten (((keySchedule key).drop (4 * r)).take 4)

/-- SubBytes on the 16-byte state. -/
def subBytes (st : List Nat) : List Nat := st.map sbox

/-- ShiftRows on the 16-byte state in FIPS-197 column-major order:
output byte r + 4c is input byte r + 4((c + r) mod 4). -/
def shiftRows (st : List Nat) : List Nat :=
  (List.range 16).map (fun i => st.getD ((i % 4) + 4 * (((i / 4) + (i % 4)) % 4)) 0)

/-- MixColumns on one 4-byte column. -/
def mixColumn : List Nat → List Nat
  | [a, b, c, d] =>
      [xtime a ^^^ (xtime b ^^^ b) ^^^ c ^^^ d,
       a ^^^ xtime b ^^^ (xtime c ^^^ c) ^^^ d,
       a ^^^ b ^^^ xtime c ^^^ (xtime d ^^^ d),
       (xtime a ^^^ a) ^^^ b ^^^ c ^^^ xtime d]
  | w => w

/-- MixColumns on the 16-byte state. -/
def mixColumns (st : List Nat) : List Nat :=
  mixColumn (st.take 4) ++ mixColumn ((st.drop 4).take 4) ++
    mixColumn ((st.drop 8).take 4) ++ mixColumn (st.drop 12)

/-- AddRoundKey: XOR the state with the round key. -/
def addRoundKey (st rk : List Nat) : List Nat := xorBytes st rk

/-- Modelled from the spec: the external block-cipher collaborator
`EncryptBlock(key: 16 bytes, block: 16 bytes) -> 16 bytes`, "a
deterministic FIPS-197 AES-128 single-block encryption", absent from the
provided sources. Ten rounds over the standard round functions. -/
def aes128EncryptBlock (key block : List Nat) : List Nat :=
  let st0 := addRoundKey block (roundKey key 0)
  let stMain := (List.range 9).foldl
    (fun st r => addRoundKey (mixColumns (shiftRows (subBytes st))) (roundKey key (r + 1)))
    st0
  addRoundKey (shiftRows (subBytes stMain)) (roundKey key 10)

/-! ## Big-endian byte/integer conversions -/

/-- Interpret a byte list as a big-endian natural number. -/
def beToNat (bs : List Nat) : Nat := bs.foldl (fun acc b => acc * 256 + b) 0

/-- The big-endian byte representation of v in n bytes (v taken mod 256^n). -/
def natToBe : Nat → Nat → List Nat
  | 0, _ => []
  | n + 1, v => natToBe n (v / 256) ++ [v % 256]

/-! ## The AesCtrEncryptor state machine

Modelled from the spec: the repository's `AesCtrEncryptor` class (its
implementation file is not among the provided sources; its tests are).
State per the spec's data model: the 16-byte key, the 16-byte working
counter value with its declared IV length (8 or 16), the Block Offset, and
the Pending Keystream Block; plus the count of bytes transformed since the
last counter reset, which the spec's `UpdateIv` rule ("add
ceil(total_bytes_processed / 16)") requires the state to determine. -/

structure AesCtrEncryptor where
  key : List Nat
  counter : List Nat
  ivSize : Nat
  blockOffset : Nat
  encCounter : List Nat
  totalBytes : Nat
  deriving DecidableEq, Repr

namespace AesCtrEncryptor

/-- An 8-byte IV is zero-extended into the low 8 bytes of the 16-byte
working counter value, high 8 bytes zero; a 16-byte IV is the counter. -/
def counterOfIv (ivBytes : List Nat) : List Nat :=
  List.replicate (16 - ivBytes.length) 0 ++ ivBytes

/-- Modelled from the spec: `InitializeWithIv(key, iv)` fails unless the
key is 16 bytes and the IV is 8 or 16 bytes (a fatal contract violation in
the reference, surfaced here as `none`); on success stores the key, sets
the working counter value and declared IV length, resets Block Offset and
clears the Pending Keystream Block. -/
def InitializeWithIv (key ivBytes : List Nat) : Option AesCtrEncryptor :=
  if key.length = 16 ∧ (ivBytes.length = 8 ∨ ivBytes.length = 16) then
    some { key := key, counter := counterOfIv ivBytes, ivSize := ivBytes.length,
           blockOffset := 0, encCounter := [], totalBytes := 0 }
  else none

/-- Modelled from the spec: `SetIv(iv)` replaces only the working counter
value and declared IV length (same IV validation), resets Block Offset and
clears the Pending Keystream Block, keeps the key. -/
def SetIv (s : AesCtrEncryptor) (ivBytes : List Nat) : Option AesCtrEncryptor :=
  if ivBytes.length = 8 ∨ ivBytes.length = 16 then
    some { s with counter := counterOfIv ivBytes, ivSize := ivBytes.length,
                  blockOffset := 0, encCounter := [], totalBytes := 0 }
  else none

/-- Modelled from the spec: `InitializeWithRandomIv(key, iv_size)` fails
identically unless iv_size is 8 or 16, then draws iv_size bytes from the
external randomness collaborator (passed here as `randomBytes`) and
proceeds as `InitializeWithIv`. -/
def InitializeWithRandomIv (key : List Nat) (ivSize : Nat) (randomBytes : List Nat) :
    Option AesCtrEncryptor :=
  if ivSize = 8 ∨ ivSize = 16 then InitializeWithIv key (randomBytes.take ivSize)
  else none

/-- The counter block fed to the block cipher for the k-th keystream block
after a reset: the per-block advance carries only within the low 8 bytes
(a 64-bit big-endian integer incremented once per block, wrapping modulo
2^64, high 8 bytes untouched) — the rule the
`128BitIVBoundaryCaseEncryption` unit test pins down. -/
def counterForBlock (base : List Nat) (k : Nat) : List Nat :=
  base.take 8 ++ natToBe 8 ((beToNat (base.drop 8) + k) % 2 ^ 64)

/-- When Block Offset is 0 a fresh keystream block is generated from the
current counter position and cached as the Pending Keystream Block;
otherwise the cached block is kept. -/
def refreshBlock (s : AesCtrEncryptor) : AesCtrEncryptor :=
  if s.blockOffset = 0 then
    { s with encCounter := aes128EncryptBlock s.key (counterForBlock s.counter (s.totalBytes / 16)) }
  else s

/-- Transform one byte: refresh the Pending Keystream Block if needed, XOR
the byte with the keystream byte at Block Offset, advance Block Offset
modulo 16. -/
def encryptByte (s : AesCtrEncryptor) (b : Nat) : Nat × AesCtrEncryptor :=
  (b ^^^ (refreshBlock s).encCounter.getD (refreshBlock s).blockOffset 0,
   { refreshBlock s with blockOffset := ((refreshBlock s).blockOffset + 1) % 16,
                         totalBytes := (refreshBlock s).totalBytes + 1 })

/-- Modelled from the spec: the Transform API core — XOR each input byte
with the keystream, carrying partial-block state across calls. Returns the
output bytes and the updated encryptor. -/
def Encrypt : AesCtrEncryptor → List Nat → List Nat × AesCtrEncryptor
  | s, [] => ([], s)
  | s, b :: rest =>
      ((encryptByte s b).1 :: (Encrypt (encryptByte s b).2 rest).1,
       (Encrypt (encryptByte s b).2 rest).2)

/-- Modelled from the spec: `Decrypt` is the identical operation (CTR mode
is involutive). -/
def Decrypt : AesCtrEncryptor → List Nat → List Nat × AesCtrEncryptor := Encrypt

/-- Modelled from the spec: `UpdateIv` advances the working counter value
per the CENC convention — declared IV length 8: add 1 to the low 64 bits,
wrapping modulo 2^64; declared IV length 16: add ceil(total bytes
processed / 16) to the whole 128-bit value with full carry, wrapping
modulo 2^128. Other fields are left as-is. -/
def UpdateIv (s : AesCtrEncryptor) : AesCtrEncryptor :=
  if s.ivSize = 8 then
    { s with counter := s.counter.take 8 ++ natToBe 8 ((beToNat (s.counter.drop 8) + 1) % 2 ^ 64) }
  else
    { s with counter := natToBe 16 ((beToNat s.counter + (s.totalBytes + 15) / 16) % 2 ^ 128) }

/-- Modelled from the spec: `iv()` reports the working counter value at
its declared byte length — the low 8 bytes for an 8-byte IV, all 16
otherwise. -/
def iv (s : AesCtrEncryptor) : List Nat :=
  if s.ivSize = 8 then s.counter.drop 8 else s.counter

end AesCtrEncryptor

/-! ## Test vectors from the unit tests (NIST SP 800-38A F.5.1) -/

/-- NIST SP 800-38A F.5.1 CTR-AES128 key (kAesCtrKey in the unit test). -/
def kAesCtrKey : List Nat :=
  [0x2b, 0x7e, 0x15, 0x16, 0x28, 0xae, 0xd2, 0xa6,
   0xab, 0xf7, 0x15, 0x88, 0x09, 0xcf, 0x4f, 0x3c]

/-- NIST SP 800-38A F.5.1 initial counter (kAesCtrIv in the unit test). -/
def kAesCtrIv : List Nat :=
  [0xf0, 0xf1, 0xf2, 0xf3, 0xf4, 0xf5, 0xf6, 0xf7,
   0xf8, 0xf9, 0xfa, 0xfb, 0xfc, 0xfd, 0xfe, 0xff]

/-- NIST SP 800-38A F.5.1 four-block plaintext (kAesCtrPlaintext). -/
def kAesCtrPlaintext : List Nat :=
  [0x6b, 0xc1, 0xbe, 0xe2, 0x2e, 0x40, 0x9f, 0x96,
   0xe9, 0x3d, 0x7e, 0x11, 0x73, 0x93, 0x17, 0x2a,
   0xae, 0x2d, 0x8a, 0x57, 0x1e, 0x03, 0xac, 0x9c,
   0x9e, 0xb7, 0x6f, 0xac, 0x45, 0xaf, 0x8e, 0x51,
   0x30, 0xc8, 0x1c, 0x46, 0xa3, 0x5c, 0xe4, 0x11,
   0xe5, 0xfb, 0xc1, 0x19, 0x1a, 0x0a, 0x52, 0xef,
   0xf6, 0x9f, 0x24, 0x45, 0xdf, 0x4f, 0x9b, 0x17,
   0xad, 0x2b, 0x41, 0x7b, 0xe6, 0x6c, 0x37, 0x10]

/-- NIST SP 800-38A F.5.1 four-block ciphertext (kAesCtrCiphertext). -/
def kAesCtrCiphertext : List Nat :=
  [0x87, 0x4d, 0x61, 0x91, 0xb6, 0x20, 0xe3, 0x26,
   0x1b, 0xef, 0x68, 0x64, 0x99, 0x0d, 0xb6, 0xce,
   0x98, 0x06, 0xf6, 0x6b, 0x79, 0x70, 0xfd, 0xff,
   0x86, 0x17, 0x18, 0x7b, 0xb9, 0xff, 0xfd, 0xff,
   0x5a, 0xe4, 0xdf, 0x3e, 0xdb, 0xd5, 0xd3, 0x5e,
   0x5b, 0x4f, 0x09, 0x02, 0x0d, 0xb0, 0x3e, 0xab,
   0x1e, 0x03, 0x1d, 0xda, 0x2f, 0xbe, 0x03, 0xd1,
   0x79, 0x21, 0x70, 0xa0, 0xf3, 0x00, 0x9c, 0xee]

/-- 16-byte IV whose low 8 bytes are all ones (kIv128Max64). -/
def kIv128Max64 : List Nat :=
  [0, 0, 0, 0, 0, 0, 0, 0, 0xff, 0xff, 0xff, 0xff, 0xff, 0xff, 0xff, 0xff]

/-- 16-byte all-zero IV (kIv128Zero). -/
def kIv128Zero : List Nat := List.replicate 16 0

/-! ## Keystream characterization

`Tracks key base sz t s` says the encryptor `s` is the state reached after
transforming `t` bytes from a counter reset to `base` (with key `key` and
declared IV length `sz`): the spec's invariant that Block Offset equals
bytes-since-reset mod 16, and that mid-block the Pending Keystream Block
is the encryption of the current counter position. -/

def ksByte (key base : List Nat) (t : Nat) : Nat :=
  (aes128EncryptBlock key (AesCtrEncryptor.counterForBlock base (t / 16))).getD (t % 16) 0

/-- The keystream bytes at logical positions t, t+1, ..., t+n-1. -/
def ksStream (key base : List Nat) : Nat → Nat → List Nat
  | _, 0 => []
  | t, n + 1 => ksByte key base t :: ksStream key base (t + 1) n

def Tracks (key base : List Nat) (sz t : Nat) (s : AesCtrEncryptor) : Prop :=
  s.key = key ∧ s.counter = base ∧ s.ivSize = sz ∧ s.totalBytes = t ∧
  s.blockOffset = t % 16 ∧
  (t % 16 ≠ 0 → s.encCounter = aes128EncryptBlock key (AesCtrEncryptor.counterForBlock base (t / 16)))

theorem ksStream_length (key base : List Nat) : ∀ t n, (ksStream key base t n).length = n := by
  intro t n
  induction n generalizing t with
  | zero => rfl
  | succ n ih => simp [ksStream, ih]

theorem ksStream_getD (key base : List Nat) :
    ∀ n t p, p < n → (ksStream key base t n).getD p 0 = ksByte key base (t + p) := by
  intro n
  induction n with
  | zero => omega
  | succ n ih =>
      intro t p hp
      cases p with
      | zero => simp [ksStream]
      | succ p =>
          have := ih (t + 1) p (by omega)
          simpa [ksStream, Nat.add_comm, Nat.add_assoc, Nat.add_left_comm] using this

theorem encryptByte_tracks {key base : List Nat} {sz t : Nat} {s : AesCtrEncryptor}
    (h : Tracks key base sz t s) (b : Nat) :
    (AesCtrEncryptor.encryptByte s b).1 = b ^^^ ksByte key base t ∧
    Tracks key base sz (t + 1) (AesCtrEncryptor.encryptByte s b).2 := by
  obtain ⟨hk, hc, hs, ht, hb, he⟩ := h
  by_cases h0 : t % 16 = 0
  · have hr : AesCtrEncryptor.refreshBlock s =
        { s with encCounter :=
            aes128EncryptBlock key (AesCtrEncryptor.counterForBlock base (t / 16)) } := by
      simp [AesCtrEncryptor.refreshBlock, hb, h0, hk, hc, ht]
    have hdiv : (t + 1) / 16 = t / 16 := by omega
    have hmod : (t + 1) % 16 = 1 := by omega
    refine ⟨?_, ?_, ?_, ?_, ?_, ?_, ?_⟩ <;>
      simp [AesCtrEncryptor.encryptByte, hr, hb, h0, hk, hc, hs, ht, ksByte, hdiv, hmod]
  · have hr : AesCtrEncryptor.refreshBlock s = s := by
      simp [AesCtrEncryptor.refreshBlock, hb, h0]
    have hmod : (t % 16 + 1) % 16 = (t + 1) % 16 := by omega
    refine ⟨?_, ?_, ?_, ?_, ?_, ?_, ?_⟩ <;>
      simp [AesCtrEncryptor.encryptByte, hr, hb, hk, hc, hs, ht, ksByte, he h0, hmod]
    intro hne
    have hdiv : (t + 1) / 16 = t / 16 := by omega
    rw [hdiv]

theorem Encrypt_tracks (bs : List Nat) :
    ∀ (s : AesCtrEncryptor) (key base : List Nat) (sz t : Nat), Tracks key base sz t s →
      (s.Encrypt bs).1 = xorBytes bs (ksStream key base t bs.length) ∧
      Tracks key base sz (t + bs.length) (s.Encrypt bs).2 := by
  induction bs with
  | nil =>
      intro s key base sz t h
      exact ⟨rfl, by simpa using h⟩
  | cons b rest ih =>
      intro s key base sz t h
      have hstep := encryptByte_tracks h b
      have hrest := ih (AesCtrEncryptor.encryptByte s b).2 key base sz (t + 1) hstep.2
      refine ⟨?_, ?_⟩
      · simp [AesCtrEncryptor.Encrypt, ksStream, xorBytes, hstep.1, hrest.1, xorBytes]
      · simpa [AesCtrEncryptor.Encrypt, Nat.add_comm, Nat.add_assoc, Nat.add_left_comm]
          using hrest.2

theorem Encrypt_append (a : List Nat) :
    ∀ (s : AesCtrEncryptor) (b : List Nat),
      s.Encrypt (a ++ b) =
        ((s.Encrypt a).1 ++ ((s.Encrypt a).2.Encrypt b).1, ((s.Encrypt a).2.Encrypt b).2) := by
  induction a with
  | nil => intro s b; rfl
  | cons x a ih =>
      intro s b
      simp [AesCtrEncryptor.Encrypt, ih]

theorem InitializeWithIv_some {key ivB : List Nat} {s : AesCtrEncryptor}
    (h : AesCtrEncryptor.InitializeWithIv key ivB = some s) :
    key.length = 16 ∧ (ivB.length = 8 ∨ ivB.length = 16) ∧
    s = { key := key, counter := AesCtrEncryptor.counterOfIv ivB, ivSize := ivB.length,
          blockOffset := 0, encCounter := [], totalBytes := 0 } := by
  unfold AesCtrEncryptor.InitializeWithIv at h
  split at h
  · next hc => exact ⟨hc.1, hc.2, by injection h with h; exact h.symm⟩
  · exact absurd h (by simp)

theorem SetIv_some {ivB : List Nat} {s s2 : AesCtrEncryptor}
    (h : s.SetIv ivB = some s2) :
    (ivB.length = 8 ∨ ivB.length = 16) ∧
    s2 = { s with counter := AesCtrEncryptor.counterOfIv ivB, ivSize := ivB.length,
                  blockOffset := 0, encCounter := [], totalBytes := 0 } := by
  unfold AesCtrEncryptor.SetIv at h
  split at h
  · next hc => exact ⟨hc, by injection h with h; exact h.symm⟩
  · exact absurd h (by simp)

theorem Tracks_init {key ivB : List Nat} {s : AesCtrEncryptor}
    (h : AesCtrEncryptor.InitializeWithIv key ivB = some s) :
    Tracks key (AesCtrEncryptor.counterOfIv ivB) ivB.length 0 s := by
  obtain ⟨-, -, rfl⟩ := InitializeWithIv_some h
  exact ⟨rfl, rfl, rfl, rfl, rfl, by simp⟩

theorem xorBytes_getD (a : List Nat) :
    ∀ (b : List Nat) (p : Nat), p < a.length → p < b.length →
      (xorBytes a b).getD p 0 = a.getD p 0 ^^^ b.getD p 0 := by
  induction a with
  | nil => intro b p h _; simp at h
  | cons x a ih =>
      intro b p h1 h2
      cases b with
      | nil => simp at h2
      | cons y b =>
          cases p with
          | zero => simp [xorBytes]
          | succ p =>
              have := ih b p (by simpa using h1) (by simpa using h2)
              simpa [xorBytes] using this

theorem xorBytes_cancel (a : List Nat) :
    ∀ b : List Nat, a.length ≤ b.length → xorBytes (xorBytes a b) b = a := by
  induction a with
  | nil => intro b _; rfl
  | cons x a ih =>
      intro b h
      cases b with
      | nil => simp at h
      | cons y b =>
          simp [xorBytes] at ih ⊢
          exact ⟨Nat.xor_cancel_right y x, ih b (by simpa using h)⟩

theorem xorBytes_length (a b : List Nat) : (xorBytes a b).length = min a.length b.length := by
  simp [xorBytes]

set_option maxRecDepth 100000

/-! ## Claim theorems -/

/-- Claim C1: for the NIST SP 800-38A F.5.1 CTR-AES128 test vector (key
2b7e...4f3c, 16-byte IV f0f1...feff, the published 4-block 64-byte
plaintext), a successfully initialized encryptor's Encrypt returns exactly
the published 64-byte ciphertext, and after SetIv to the same IV, Decrypt
of that ciphertext returns exactly the original plaintext. -/
theorem nist_ctr_known_vector :
    (AesCtrEncryptor.InitializeWithIv kAesCtrKey kAesCtrIv).map
        (fun s0 => (s0.Encrypt kAesCtrPlaintext).1) = some kAesCtrCiphertext ∧
    (AesCtrEncryptor.InitializeWithIv kAesCtrKey kAesCtrIv).bind
        (fun s0 => ((s0.Encrypt kAesCtrPlaintext).2.SetIv kAesCtrIv).map
          (fun s2 => (s2.Decrypt kAesCtrCiphertext).1)) = some kAesCtrPlaintext := by
  decide

/-- Claim C7: InitializeWithIv fails (never silently proceeding) exactly
when the key is not 16 bytes or the IV is not 8 or 16 bytes, and
InitializeWithRandomIv fails identically for an invalid requested size; in
particular a 13-byte key, a 15-byte IV, and a 15-byte random-IV request
are each rejected. -/
theorem initialization_validation :
    (∀ key ivB : List Nat,
        AesCtrEncryptor.InitializeWithIv key ivB = none ↔
          ¬ (key.length = 16 ∧ (ivB.length = 8 ∨ ivB.length = 16)))
    ∧ (∀ (key rnd : List Nat) (n : Nat),
        AesCtrEncryptor.InitializeWithRandomIv key n rnd = none ↔
          (¬ (n = 8 ∨ n = 16) ∨ AesCtrEncryptor.InitializeWithIv key (rnd.take n) = none))
    ∧ AesCtrEncryptor.InitializeWithIv (List.replicate 13 0x2b) kAesCtrIv = none
    ∧ AesCtrEncryptor.InitializeWithIv kAesCtrKey (List.replicate 15 0xf0) = none
    ∧ AesCtrEncryptor.InitializeWithRandomIv kAesCtrKey 15 (List.replicate 15 0) = none := by
  refine ⟨?_, ?_, by decide, by decide, by decide⟩
  · intro key ivB
    unfold AesCtrEncryptor.InitializeWithIv
    split <;> simp_all
  · intro key rnd n
    unfold AesCtrEncryptor.InitializeWithRandomIv
    split <;> simp_all

/-- Claim C9: UpdateIv mutates only the working counter value: the key,
the Block Offset, the Pending Keystream Block (and the declared IV length
and byte count) are unchanged, and the advanced value — low-64
incremented for a declared 8-byte IV, 128-bit block-count advance for a
16-byte one — is what iv() subsequently reports at the declared length. -/
theorem updateIv_frame (s : AesCtrEncryptor) (hc : s.counter.length = 16) :
    s.UpdateIv.key = s.key ∧ s.UpdateIv.blockOffset = s.blockOffset ∧
    s.UpdateIv.encCounter = s.encCounter ∧ s.UpdateIv.ivSize = s.ivSize ∧
    s.UpdateIv.totalBytes = s.totalBytes ∧
    s.UpdateIv.iv =
      (if s.ivSize = 8 then natToBe 8 ((beToNat (s.counter.drop 8) + 1) % 2 ^ 64)
       else natToBe 16 ((beToNat s.counter + (s.totalBytes + 15) / 16) % 2 ^ 128)) := by
  unfold AesCtrEncryptor.UpdateIv AesCtrEncryptor.iv
  split
  · next h8 =>
      refine ⟨rfl, rfl, rfl, rfl, rfl, ?_⟩
      simp only [h8, if_pos]
      rw [List.drop_append_of_le_length (by simp [hc]),
        List.drop_eq_nil_of_le (by simp [hc]), List.nil_append]
  · next h8 => simp [h8]

/-- Witness for updateIv_frame at a concrete encryptor state. -/
theorem updateIv_frame_witness :
    (AesCtrEncryptor.counterOfIv kAesCtrIv).length = 16 ∧
    ({ key := kAesCtrKey, counter := AesCtrEncryptor.counterOfIv kAesCtrIv, ivSize := 16,
       blockOffset := 0, encCounter := [], totalBytes := 0 } :
        AesCtrEncryptor).UpdateIv.key = kAesCtrKey := by
  have h := updateIv_frame
    { key := kAesCtrKey, counter := AesCtrEncryptor.counterOfIv kAesCtrIv, ivSize := 16,
      blockOffset := 0, encCounter := [], totalBytes := 0 } (by decide)
  exact ⟨by decide, h.1⟩

theorem counterOfIv_16 {ivB : List Nat} (h : ivB.length = 16) :
    AesCtrEncryptor.counterOfIv ivB = ivB := by
  simp [AesCtrEncryptor.counterOfIv, h]

theorem counterOfIv_8_take {ivB : List Nat} (h : ivB.length = 8) :
    (AesCtrEncryptor.counterOfIv ivB).take 8 = List.replicate 8 0 := by
  unfold AesCtrEncryptor.counterOfIv
  rw [h, List.take_append_of_le_length (by simp), List.take_of_length_le (by simp)]

theorem counterOfIv_8_drop {ivB : List Nat} (h : ivB.length = 8) :
    (AesCtrEncryptor.counterOfIv ivB).drop 8 = ivB := by
  unfold AesCtrEncryptor.counterOfIv
  rw [h, List.drop_append_of_le_length (by simp), List.drop_eq_nil_of_le (by simp),
    List.nil_append]

/-- Claim C4: when the declared IV length is 16, UpdateIv adds
ceil(total_bytes_processed / 16) — the number of 16-byte blocks consumed
since the last reset — to the 128-bit working counter value using full
128-bit addition with carry, wrapping modulo 2^128; the result is what
iv() reports. -/
theorem updateIv_adds_block_count_128 (key ivB p : List Nat) (s0 : AesCtrEncryptor)
    (h : AesCtrEncryptor.InitializeWithIv key ivB = some s0) (h16 : ivB.length = 16) :
    ((s0.Encrypt p).2.UpdateIv).counter
        = natToBe 16 ((beToNat ivB + (p.length + 15) / 16) % 2 ^ 128) ∧
    ((s0.Encrypt p).2.UpdateIv).iv
        = natToBe 16 ((beToNat ivB + (p.length + 15) / 16) % 2 ^ 128) := by
  obtain ⟨hk, hc, hs, ht, hb, he⟩ :=
    (Encrypt_tracks p s0 key (AesCtrEncryptor.counterOfIv ivB) ivB.length 0 (Tracks_init h)).2
  have h8 : ¬ (s0.Encrypt p).2.ivSize = 8 := by omega
  constructor
  · simp [AesCtrEncryptor.UpdateIv, h8, hc, counterOfIv_16 h16, ht]
  · simp [AesCtrEncryptor.UpdateIv, AesCtrEncryptor.iv, h8, hc, counterOfIv_16 h16, ht]

/-- Witness for updateIv_adds_block_count_128: the IV-advance unit test's
third case — IV 2^128 − 2, a 60-byte sample (4 blocks) — instantiated. -/
theorem updateIv_adds_block_count_128_witness :
    AesCtrEncryptor.InitializeWithIv (List.replicate 16 1)
        (List.replicate 15 0xff ++ [0xfe]) = some
      { key := List.replicate 16 1,
        counter := AesCtrEncryptor.counterOfIv (List.replicate 15 0xff ++ [0xfe]),
        ivSize := 16, blockOffset := 0, encCounter := [], totalBytes := 0 } ∧
    (List.replicate 15 0xff ++ [0xfe] : List Nat).length = 16 ∧
    ((({ key := List.replicate 16 1,
         counter := AesCtrEncryptor.counterOfIv (List.replicate 15 0xff ++ [0xfe]),
         ivSize := 16, blockOffset := 0, encCounter := [], totalBytes := 0 } :
          AesCtrEncryptor).Encrypt (List.replicate 60 3)).2.UpdateIv).counter
      = natToBe 16 ((beToNat (List.replicate 15 0xff ++ [0xfe]) +
          ((List.replicate 60 3 : List Nat).length + 15) / 16) % 2 ^ 128) :=
  ⟨by decide, by decide,
   (updateIv_adds_block_count_128 (List.replicate 16 1) (List.replicate 15 0xff ++ [0xfe])
      (List.replicate 60 3) _ (by decide) (by decide)).1⟩

/-- Claim C5: when the declared IV length is 8, UpdateIv adds exactly 1 to
the low 64 bits of the working counter value with 64-bit wraparound,
regardless of how many bytes or blocks were processed since the last
reset; iv() reports the advanced low 8 bytes. -/
theorem updateIv_increments_low64 (key ivB p : List Nat) (s0 : AesCtrEncryptor)
    (h : AesCtrEncryptor.InitializeWithIv key ivB = some s0) (h8 : ivB.length = 8) :
    ((s0.Encrypt p).2.UpdateIv).counter
        = List.replicate 8 0 ++ natToBe 8 ((beToNat ivB + 1) % 2 ^ 64) ∧
    ((s0.Encrypt p).2.UpdateIv).iv = natToBe 8 ((beToNat ivB + 1) % 2 ^ 64) := by
  obtain ⟨hk, hc, hs, ht, hb, he⟩ :=
    (Encrypt_tracks p s0 key (AesCtrEncryptor.counterOfIv ivB) ivB.length 0 (Tracks_init h)).2
  have hsz : (s0.Encrypt p).2.ivSize = 8 := by omega
  have hcnt : ((s0.Encrypt p).2.UpdateIv).counter
      = List.replicate 8 0 ++ natToBe 8 ((beToNat ivB + 1) % 2 ^ 64) := by
    simp only [AesCtrEncryptor.UpdateIv, hsz, if_pos, hc, counterOfIv_8_take h8,
      counterOfIv_8_drop h8]
  refine ⟨hcnt, ?_⟩
  have hsz2 : ((s0.Encrypt p).2.UpdateIv).ivSize = 8 := by
    simp [AesCtrEncryptor.UpdateIv, hsz]
  rw [AesCtrEncryptor.iv, if_pos hsz2, hcnt,
    List.drop_append_of_le_length (by simp), List.drop_eq_nil_of_le (by simp),
    List.nil_append]

/-- Witness for updateIv_increments_low64: the IV-advance unit test's
all-ones 8-byte IV (2^64 − 1), a 60-byte sample, instantiated. -/
theorem updateIv_increments_low64_witness :
    AesCtrEncryptor.InitializeWithIv (List.replicate 16 1) (List.replicate 8 0xff) = some
      { key := List.replicate 16 1,
        counter := AesCtrEncryptor.counterOfIv (List.replicate 8 0xff),
        ivSize := 8, blockOffset := 0, encCounter := [], totalBytes := 0 } ∧
    (List.replicate 8 0xff : List Nat).length = 8 ∧
    ((({ key := List.replicate 16 1,
         counter := AesCtrEncryptor.counterOfIv (List.replicate 8 0xff),
         ivSize := 8, blockOffset := 0, encCounter := [], totalBytes := 0 } :
          AesCtrEncryptor).Encrypt (List.replicate 60 3)).2.UpdateIv).iv
      = natToBe 8 ((beToNat (List.replicate 8 0xff) + 1) % 2 ^ 64) :=
  ⟨by decide, by decide,
   (updateIv_increments_low64 (List.replicate 16 1) (List.replicate 8 0xff)
      (List.replicate 60 3) _ (by decide) (by decide)).2⟩

/-- Claim C6: for every key, IV of length 8 or 16, and plaintext,
encrypting, then resetting the IV to its pre-encryption value with SetIv,
then decrypting the ciphertext, yields the original plaintext exactly. -/
theorem encrypt_decrypt_involution (key ivB p : List Nat) (s0 : AesCtrEncryptor)
    (h : AesCtrEncryptor.InitializeWithIv key ivB = some s0) :
    ∃ s2, (s0.Encrypt p).2.SetIv ivB = some s2 ∧ (s2.Decrypt (s0.Encrypt p).1).1 = p := by
  have hinit := InitializeWithIv_some h
  have htr := Encrypt_tracks p s0 key (AesCtrEncryptor.counterOfIv ivB) ivB.length 0
    (Tracks_init h)
  refine ⟨{ (s0.Encrypt p).2 with counter := AesCtrEncryptor.counterOfIv ivB, ivSize := ivB.length, blockOffset := 0, encCounter := [], totalBytes := 0 }, ?_, ?_⟩
  · unfold AesCtrEncryptor.SetIv
    rw [if_pos hinit.2.1]
  · have htr2 : Tracks key (AesCtrEncryptor.counterOfIv ivB) ivB.length 0
        { (s0.Encrypt p).2 with counter := AesCtrEncryptor.counterOfIv ivB, ivSize := ivB.length, blockOffset := 0, encCounter := [], totalBytes := 0 } :=
      ⟨htr.2.1, rfl, rfl, rfl, rfl, by simp⟩
    have hdec := Encrypt_tracks (s0.Encrypt p).1 _ key (AesCtrEncryptor.counterOfIv ivB)
      ivB.length 0 htr2
    have hlen : (s0.Encrypt p).1.length = p.length := by
      rw [htr.1, xorBytes_length, ksStream_length]
      omega
    show (AesCtrEncryptor.Encrypt _ (s0.Encrypt p).1).1 = p
    rw [hdec.1, hlen, htr.1]
    exact xorBytes_cancel p _ (by rw [ksStream_length])

/-- Witness for encrypt_decrypt_involution at the NIST key and IV with a
one-byte plaintext. -/
theorem encrypt_decrypt_involution_witness :
    AesCtrEncryptor.InitializeWithIv kAesCtrKey kAesCtrIv = some
      { key := kAesCtrKey, counter := AesCtrEncryptor.counterOfIv kAesCtrIv, ivSize := 16,
        blockOffset := 0, encCounter := [], totalBytes := 0 } ∧
    (∃ s2, (({ key := kAesCtrKey, counter := AesCtrEncryptor.counterOfIv kAesCtrIv,
               ivSize := 16, blockOffset := 0, encCounter := [], totalBytes := 0 } :
                AesCtrEncryptor).Encrypt [0x61]).2.SetIv kAesCtrIv = some s2 ∧
      (s2.Decrypt (({ key := kAesCtrKey, counter := AesCtrEncryptor.counterOfIv kAesCtrIv,
                      ivSize := 16, blockOffset := 0, encCounter := [],
                      totalBytes := 0 } : AesCtrEncryptor).Encrypt [0x61]).1).1 = [0x61]) :=
  ⟨by decide, encrypt_decrypt_involution kAesCtrKey kAesCtrIv [0x61] _ (by decide)⟩

/-- Sequential subsample processing: encrypt each chunk in turn,
continuing the engine state, concatenating outputs. -/
def encryptChunks : AesCtrEncryptor → List (List Nat) → List Nat × AesCtrEncryptor
  | s, [] => ([], s)
  | s, c :: cs =>
      ((AesCtrEncryptor.Encrypt s c).1 ++ (encryptChunks (AesCtrEncryptor.Encrypt s c).2 cs).1,
       (encryptChunks (AesCtrEncryptor.Encrypt s c).2 cs).2)

theorem encryptChunks_eq_flatten : ∀ (chunks : List (List Nat)) (s : AesCtrEncryptor),
    encryptChunks s chunks = AesCtrEncryptor.Encrypt s chunks.flatten := by
  intro chunks
  induction chunks with
  | nil => intro s; rfl
  | cons c cs ih =>
      intro s
      simp [encryptChunks, Encrypt_append, ih]

/-- Claim C3: for every key, IV, plaintext and partition of the plaintext
into consecutive chunks, sequentially encrypting each chunk (continuing
the engine's partial-block state between calls) produces the same
concatenated ciphertext — and the same final state — as one Encrypt call
over the whole plaintext; and after each chunk, block_offset equals the
cumulative number of bytes processed modulo 16. -/
theorem subsample_split_invariance (key ivB : List Nat) (s0 : AesCtrEncryptor)
    (h : AesCtrEncryptor.InitializeWithIv key ivB = some s0) (chunks : List (List Nat)) :
    encryptChunks s0 chunks = s0.Encrypt chunks.flatten ∧
    ∀ i : Nat, (encryptChunks s0 (chunks.take i)).2.blockOffset
        = (chunks.take i).flatten.length % 16 := by
  refine ⟨encryptChunks_eq_flatten chunks s0, ?_⟩
  intro i
  rw [encryptChunks_eq_flatten]
  obtain ⟨-, -, -, -, hb, -⟩ :=
    (Encrypt_tracks ((chunks.take i).flatten) s0 key (AesCtrEncryptor.counterOfIv ivB)
      ivB.length 0 (Tracks_init h)).2
  simpa using hb

/-- Witness for subsample_split_invariance: the NIST key and IV with the
3-byte plaintext split into chunks of 1 and 2 bytes. -/
theorem subsample_split_invariance_witness :
    AesCtrEncryptor.InitializeWithIv kAesCtrKey kAesCtrIv = some
      ⟨kAesCtrKey, AesCtrEncryptor.counterOfIv kAesCtrIv, 16, 0, [], 0⟩ ∧
    (encryptChunks ⟨kAesCtrKey, AesCtrEncryptor.counterOfIv kAesCtrIv, 16, 0, [], 0⟩
        [[0x6b], [0xc1, 0xbe]]
      = AesCtrEncryptor.Encrypt ⟨kAesCtrKey, AesCtrEncryptor.counterOfIv kAesCtrIv, 16, 0, [], 0⟩
          ([[0x6b], [0xc1, 0xbe]] : List (List Nat)).flatten ∧
     ∀ i : Nat, (encryptChunks ⟨kAesCtrKey, AesCtrEncryptor.counterOfIv kAesCtrIv, 16, 0, [], 0⟩
          (([[0x6b], [0xc1, 0xbe]] : List (List Nat)).take i)).2.blockOffset
        = (([[0x6b], [0xc1, 0xbe]] : List (List Nat)).take i).flatten.length % 16) :=
  ⟨by decide,
   subsample_split_invariance kAesCtrKey kAesCtrIv _ (by decide) [[0x6b], [0xc1, 0xbe]]⟩

/-! ## In-place transformation -/

theorem getD_append_cons (l1 : List Nat) (b : Nat) (l2 : List Nat) :
    (l1 ++ b :: l2).getD l1.length 0 = b := by
  induction l1 with
  | nil => rfl
  | cons x l1 ih => simpa using ih

theorem set_append_cons (l1 : List Nat) (b o : Nat) (l2 : List Nat) :
    (l1 ++ b :: l2).set l1.length o = l1 ++ o :: l2 := by
  induction l1 with
  | nil => rfl
  | cons x l1 ih => simp [ih]

/-- The aliased transform loop of `Encrypt(&buf[0], n, &buf[0])`: for n
steps from index i, read buf[i], transform one byte, write the result back
into buf[i]. -/
def EncryptInPlace : Nat → AesCtrEncryptor → List Nat → Nat → List Nat × AesCtrEncryptor
  | 0, s, buf, _ => (buf, s)
  | n + 1, s, buf, i =>
      EncryptInPlace n (AesCtrEncryptor.encryptByte s (buf.getD i 0)).2
        (buf.set i (AesCtrEncryptor.encryptByte s (buf.getD i 0)).1) (i + 1)

/-- The non-aliased transform loop of `Encrypt(&src[0], n, &dst[0])`: for
n steps from index i, read src[i], write the transformed byte to dst[i]. -/
def EncryptToDest :
    Nat → AesCtrEncryptor → List Nat → List Nat → Nat → List Nat × AesCtrEncryptor
  | 0, s, _, dst, _ => (dst, s)
  | n + 1, s, src, dst, i =>
      EncryptToDest n (AesCtrEncryptor.encryptByte s (src.getD i 0)).2 src
        (dst.set i (AesCtrEncryptor.encryptByte s (src.getD i 0)).1) (i + 1)

theorem EncryptInPlace_spec (l2 : List Nat) :
    ∀ (s : AesCtrEncryptor) (l1 : List Nat),
      EncryptInPlace l2.length s (l1 ++ l2) l1.length
        = (l1 ++ (AesCtrEncryptor.Encrypt s l2).1, (AesCtrEncryptor.Encrypt s l2).2) := by
  induction l2 with
  | nil => intro s l1; simp [EncryptInPlace, AesCtrEncryptor.Encrypt]
  | cons b l2 ih =>
      intro s l1
      have hstep := ih (AesCtrEncryptor.encryptByte s b).2
        (l1 ++ [(AesCtrEncryptor.encryptByte s b).1])
      simp only [List.append_assoc, List.singleton_append, List.length_append,
        List.length_cons, List.length_nil] at hstep
      simp only [List.length_cons, EncryptInPlace, getD_append_cons, set_append_cons,
        AesCtrEncryptor.Encrypt]
      simpa using hstep

theorem EncryptToDest_spec (l2 : List Nat) :
    ∀ (s : AesCtrEncryptor) (l1 d1 d2 : List Nat), d1.length = l1.length →
      d2.length = l2.length →
      EncryptToDest l2.length s (l1 ++ l2) (d1 ++ d2) d1.length
        = (d1 ++ (AesCtrEncryptor.Encrypt s l2).1, (AesCtrEncryptor.Encrypt s l2).2) := by
  induction l2 with
  | nil =>
      intro s l1 d1 d2 h1 h2
      have hd : d2 = [] := List.eq_nil_of_length_eq_zero (by simpa using h2)
      subst hd
      simp [EncryptToDest, AesCtrEncryptor.Encrypt]
  | cons b l2 ih =>
      intro s l1 d1 d2 h1 h2
      cases d2 with
      | nil => simp at h2
      | cons e d2 =>
          have hget : (l1 ++ b :: l2).getD d1.length 0 = b := by
            rw [h1]; exact getD_append_cons l1 b l2
          have hset : (d1 ++ e :: d2).set d1.length ((AesCtrEncryptor.encryptByte s b).1)
              = d1 ++ (AesCtrEncryptor.encryptByte s b).1 :: d2 :=
            set_append_cons d1 e _ d2
          have hstep := ih (AesCtrEncryptor.encryptByte s b).2 (l1 ++ [b])
            (d1 ++ [(AesCtrEncryptor.encryptByte s b).1]) d2
            (by simp [h1]) (by simpa using h2)
          simp only [List.append_assoc, List.singleton_append, List.length_append,
            List.length_cons, List.length_nil] at hstep
          simp only [List.length_cons, EncryptToDest, hget, hset, AesCtrEncryptor.Encrypt]
          simpa using hstep

/-- Claim C8: for every encryptor state and input buffer, Encrypt with the
destination aliasing the source (in-place) leaves the buffer holding
exactly the bytes that an Encrypt of the same input into a separate,
non-aliasing destination of the same length would produce. -/
theorem inplace_encrypt_equiv (s : AesCtrEncryptor) (buf dst : List Nat)
    (h : dst.length = buf.length) :
    EncryptInPlace buf.length s buf 0 = EncryptToDest buf.length s buf dst 0 := by
  have h1 := EncryptInPlace_spec buf s []
  have h2 := EncryptToDest_spec buf s [] [] dst rfl h
  simpa using h1.trans h2.symm

/-- Witness for inplace_encrypt_equiv at a concrete state and buffers. -/
theorem inplace_encrypt_equiv_witness :
    ([0, 0] : List Nat).length = ([0x6b, 0xc1] : List Nat).length ∧
    EncryptInPlace ([0x6b, 0xc1] : List Nat).length
        ⟨kAesCtrKey, AesCtrEncryptor.counterOfIv kAesCtrIv, 16, 0, [], 0⟩ [0x6b, 0xc1] 0
      = EncryptToDest ([0x6b, 0xc1] : List Nat).length
          ⟨kAesCtrKey, AesCtrEncryptor.counterOfIv kAesCtrIv, 16, 0, [], 0⟩ [0x6b, 0xc1]
          [0, 0] 0 :=
  ⟨by decide,
   inplace_encrypt_equiv ⟨kAesCtrKey, AesCtrEncryptor.counterOfIv kAesCtrIv, 16, 0, [], 0⟩
     [0x6b, 0xc1] [0, 0] (by decide)⟩

/-! ## Keystream counter carry behavior -/

/-- Counterexample to claim C2 as stated: with the NIST key and the
16-byte IV whose low 64 bits are all ones, the output byte at logical
position 16 (input: 17 zero bytes) is NOT the input byte XOR byte 0 of
EncryptBlock(key, counter_base + 1) computed with 128-bit wraparound
addition — the engine instead wraps only the low 64 bits of the counter
(see the `128BitIVBoundaryCaseEncryption` unit test). -/
theorem keystream_counter_no_128bit_carry :
    ¬ ((AesCtrEncryptor.InitializeWithIv kAesCtrKey kIv128Max64).map
          (fun s => (s.Encrypt (List.replicate 17 0)).1.getD 16 0)
        = some ((List.replicate 17 0 : List Nat).getD 16 0 ^^^
            (aes128EncryptBlock kAesCtrKey
              (natToBe 16 ((beToNat (AesCtrEncryptor.counterOfIv kIv128Max64) + 16 / 16)
                % 2 ^ 128))).getD (16 % 16) 0)) := by
  decide

/-- Claim C2 (amended): for every successfully initialized encryptor and
every byte position p below the input length, the output byte at p is the
input byte XOR byte (p mod 16) of EncryptBlock(key,
counterForBlock(counter_base, floor(p/16))), where counter_base is the
working counter value at the last reset and counterForBlock adds
floor(p/16) into the low 64 bits of the counter only, wrapping modulo
2^64 and leaving the high 64 bits unchanged (not 128-bit addition). -/
theorem keystream_byte_low64_formula (key ivB plain : List Nat) (s0 : AesCtrEncryptor)
    (h : AesCtrEncryptor.InitializeWithIv key ivB = some s0) (p : Nat)
    (hp : p < plain.length) :
    (s0.Encrypt plain).1.getD p 0
      = plain.getD p 0 ^^^
        (aes128EncryptBlock key
          (AesCtrEncryptor.counterForBlock (AesCtrEncryptor.counterOfIv ivB) (p / 16))).getD
          (p % 16) 0 := by
  have htr := Encrypt_tracks plain s0 key (AesCtrEncryptor.counterOfIv ivB) ivB.length 0
    (Tracks_init h)
  rw [htr.1, xorBytes_getD _ _ p hp (by rw [ksStream_length]; exact hp),
    ksStream_getD _ _ plain.length 0 p hp]
  simp [ksByte]

/-- Witness for keystream_byte_low64_formula at the NIST key and IV, a
one-byte plaintext, position 0. -/
theorem keystream_byte_low64_formula_witness :
    AesCtrEncryptor.InitializeWithIv kAesCtrKey kAesCtrIv = some
      ⟨kAesCtrKey, AesCtrEncryptor.counterOfIv kAesCtrIv, 16, 0, [], 0⟩ ∧
    (0 : Nat) < ([0x6b] : List Nat).length ∧
    ((AesCtrEncryptor.Encrypt ⟨kAesCtrKey, AesCtrEncryptor.counterOfIv kAesCtrIv, 16, 0, [], 0⟩
        [0x6b]).1.getD 0 0
      = ([0x6b] : List Nat).getD 0 0 ^^^
        (aes128EncryptBlock kAesCtrKey
          (AesCtrEncryptor.counterForBlock (AesCtrEncryptor.counterOfIv kAesCtrIv)
            (0 / 16))).getD (0 % 16) 0) :=
  ⟨by decide, by decide,
   keystream_byte_low64_formula kAesCtrKey kAesCtrIv [0x6b] _ (by decide) 0 (by decide)⟩

/-- Claim C10: during keystream generation the per-block counter increment
carries only within the low 8 bytes of the 16-byte counter, wrapping
modulo 2^64 and leaving the high 8 bytes unchanged: from the 16-byte IV
whose low 64 bits are all ones, the second block's counter is the all-zero
block, and encrypting the NIST 4-block plaintext from that IV equals the
first 16 bytes encrypted from that IV followed by the remaining 48 bytes
encrypted from the all-zero IV — exactly the
`128BitIVBoundaryCaseEncryption` unit test. -/
theorem keystream_low64_wraparound :
    AesCtrEncryptor.counterForBlock (AesCtrEncryptor.counterOfIv kIv128Max64) 1 = kIv128Zero ∧
    (AesCtrEncryptor.InitializeWithIv kAesCtrKey kIv128Max64).map
        (fun s => (s.Encrypt kAesCtrPlaintext).1)
      = (AesCtrEncryptor.InitializeWithIv kAesCtrKey kIv128Max64).bind
          (fun sa => (AesCtrEncryptor.InitializeWithIv kAesCtrKey kIv128Zero).map
            (fun sb => (sa.Encrypt (kAesCtrPlaintext.take 16)).1
              ++ (sb.Encrypt (kAesCtrPlaintext.drop 16)).1)) := by
  decide
